import Mathlib

set_option linter.unusedSectionVars false
set_option linter.unusedVariables false

/-!
Shallow embedding of the layout engine of the plakativ poster-splitting
program: the simple and complex tilers (`simple_cover`, `complex_cover`)
and the poster-size resolver / layout assembler (`Plakativ.compute_layout`),
translated from `plakativ.py`.  Real-valued quantities are modelled by an
arbitrary linear ordered field with a floor, instantiated at `ℚ` for
executable claims and at `ℝ` for the square-root based resolver modes.
Python exceptions are modelled by `Except PyError`.
-/

namespace Plakativ

/-- The runtime errors the embedded code can actually raise: `TypeError`
(unpacking `None`, plakativ.py line 439), `ZeroDivisionError` (float
division by zero) and `ValueError` (`math.sqrt` of a negative number). -/
inductive PyError : Type where
  | typeError : PyError
  | zeroDivisionError : PyError
  | valueError : PyError
deriving DecidableEq

/-- The layouter strategy selector of `compute_layout`. -/
inductive Strategy : Type where
  | simple : Strategy
  | complex : Strategy
deriving DecidableEq

section Tilers

variable {α : Type*} [LinearOrderedField α] [FloorRing α]

/-- One sheet placement: x position, y position, portrait orientation flag,
mirroring the `(posx, posy, portrait)` tuples of plakativ.py. -/
abbrev Placement (α : Type*) := α × α × Bool

/-- The row-major grid of placements built by the nested
`for py in range(pages_y): for px in range(pages_x)` loops of
`simple_cover` (plakativ.py lines 137-145). -/
def grid (pagesX pagesY : ℕ) (sx sy : α) (p : Bool) : List (Placement α) :=
  (List.range pagesY).flatMap fun py =>
    (List.range pagesX).map fun px => (((px : ℕ) : α) * sx, ((py : ℕ) : α) * sy, p)

/-- Function `simple_cover(n, m, x, y)` from plakativ.py lines 121-146: cover an
n-by-m poster with a regular grid of x-by-y printable sheet rectangles,
choosing the sheet orientation with the fewer sheets (ties favour the
unrotated orientation), and return the placements together with the total
covered size. -/
def simple_cover (n m x y : α) : List (Placement α) × (α × α) :=
  let pages_x_portrait : ℤ := ⌈n / x⌉
  let pages_y_portrait : ℤ := ⌈m / y⌉
  let pages_x_landscape : ℤ := ⌈n / y⌉
  let pages_y_landscape : ℤ := ⌈m / x⌉
  if pages_x_portrait * pages_y_portrait ≤ pages_x_landscape * pages_y_landscape then
    (grid pages_x_portrait.toNat pages_y_portrait.toNat x y true,
      ((pages_x_portrait : α) * x, (pages_y_portrait : α) * y))
  else
    (grid pages_x_landscape.toNat pages_y_landscape.toNat y x false,
      ((pages_x_landscape : α) * y, (pages_y_landscape : α) * x))

/-- The `portrait` tuple-of-tuples of `complex_cover` (plakativ.py lines
173-179): row r is one orientation assignment for the four poster corners
(upper-left, upper-right, lower-right, lower-left). -/
def portraitTab (r d : ℕ) : Bool :=
  match r, d with
  | 0, 0 => true | 0, 1 => true  | 0, 2 => true  | 0, 3 => false
  | 1, 0 => true | 1, 1 => true  | 1, 2 => false | 1, 3 => false
  | 2, 0 => true | 2, 1 => false | 2, 2 => true  | 2, 3 => false
  | 3, 0 => true | 3, 1 => false | 3, 2 => false | 3, 3 => true
  | 4, 0 => true | 4, 1 => false | 4, 2 => false | 4, 3 => false
  | _, _ => true

/-- Lambda `X = lambda r, d: x if portrait[r][d] else y` (plakativ.py line 180). -/
def dimX (x y : α) (r d : ℕ) : α := if portraitTab r d then x else y

/-- Lambda `Y = lambda r, d: y if portrait[r][d] else x` (plakativ.py line 181). -/
def dimY (x y : α) (r d : ℕ) : α := if portraitTab r d then y else x

/-- Python `range(1, k)` for an integer bound `k`: the list `[1, …, k-1]`
(empty when `k ≤ 1`). -/
def rangeFrom1 (k : ℤ) : List ℕ :=
  (List.range (k - 1).toNat).map (· + 1)

/-- One corner block of `complex_cover`: the doubly nested
`for i in range(w): for j in range(h)` loops appending
`(ox + i*sx, oy + j*sy, p)` (plakativ.py lines 225-259; note the x index
is the outer loop here, unlike in `simple_cover`). -/
def cornerBlock (w h : ℕ) (ox oy sx sy : α) (p : Bool) : List (Placement α) :=
  (List.range w).flatMap fun i =>
    (List.range h).map fun j => (ox + ((i : ℕ) : α) * sx, oy + ((j : ℕ) : α) * sy, p)

/-- The candidate configuration `newconfig` built by the innermost loop
body of `complex_cover` (plakativ.py lines 202-291) for rotation `r` and
corner block sizes `w0`, `h0`, `w2`, `h2`: the four corner blocks, plus a
centered `simple_cover` infill when the corner blocks leave a hole. -/
def buildCandidate (n m x y : α) (c : ℕ × ℕ × ℕ × ℕ × ℕ) : List (Placement α) :=
  let (r, w0, h0, w2, h2) := c
  let X := dimX x y
  let Y := dimY x y
  let w1 : ℤ := max ⌈(n - (w0 : α) * X r 0) / X r 1⌉ 0
  let h3 : ℤ := max ⌈(m - (h0 : α) * Y r 0) / Y r 3⌉ 0
  let w3 : ℤ := max ⌈(n - (w2 : α) * X r 2) / X r 3⌉ 0
  let h1 : ℤ := max ⌈(m - (h2 : α) * Y r 2) / Y r 1⌉ 0
  let block0 := cornerBlock w0 h0 0 0 (X r 0) (Y r 0) (portraitTab r 0)
  let block1 := cornerBlock w1.toNat h1.toNat (n - (w1 : α) * X r 1) 0
    (X r 1) (Y r 1) (portraitTab r 1)
  let block2 := cornerBlock w2 h2 (n - (w2 : α) * X r 2) (m - (h2 : α) * Y r 2)
    (X r 2) (Y r 2) (portraitTab r 2)
  let block3 := cornerBlock w3.toNat h3.toNat 0 (m - (h3 : α) * Y r 3)
    (X r 3) (Y r 3) (portraitTab r 3)
  let X4 := n - (w0 : α) * X r 0 - (w2 : α) * X r 2
  let Y4 := m - (h1 : α) * Y r 1 - (h3 : α) * Y r 3
  let center : List (Placement α) :=
    if 0 < X4 ∧ 0 < Y4 then
      let sc := simple_cover X4 Y4 x y
      sc.1.map fun q =>
        ((w0 : α) * X r 0 + (X4 - sc.2.1) / 2 + q.1,
         (h1 : α) * Y r 1 + (Y4 - sc.2.2) / 2 + q.2.1, q.2.2)
    else
      let X4b := n - (w1 : α) * X r 1 - (w3 : α) * X r 3
      let Y4b := m - (h0 : α) * Y r 0 - (h2 : α) * Y r 2
      if 0 < X4b ∧ 0 < Y4b then
        let sc := simple_cover X4b Y4b x y
        sc.1.map fun q =>
          ((w3 : α) * X r 3 + (X4b - sc.2.1) / 2 + q.1,
           (h0 : α) * Y r 0 + (Y4b - sc.2.2) / 2 + q.2.1, q.2.2)
      else []
  block0 ++ block1 ++ block2 ++ block3 ++ center

/-- The lexicographic enumeration of `(r, w0, h0, w2, h2)` visited by the
nested loops of `complex_cover` (plakativ.py lines 198-218), in source
iteration order. -/
def coverCandidates (n m x y : α) (numRotations : ℕ) : List (ℕ × ℕ × ℕ × ℕ × ℕ) :=
  (List.range numRotations).flatMap fun r =>
    (rangeFrom1 ⌈n / dimX x y r 0⌉).flatMap fun w0 =>
      (rangeFrom1 ⌈m / dimY x y r 0⌉).flatMap fun h0 =>
        (rangeFrom1 ⌈n / dimX x y r 2⌉).flatMap fun w2 =>
          (rangeFrom1 ⌈m / dimY x y r 2⌉).map fun h2 => (r, w0, h0, w2, h2)

/-- The search of `complex_cover` over candidate configurations, carrying
the current best `(cover, config)` pair: return `newconfig` at once when
it reaches the theoretical minimum, otherwise keep the smaller of the new
and the current best configuration (plakativ.py lines 198-301). -/
def searchLoop (n m x y : α) (minimum : ℤ) :
    List (ℕ × ℕ × ℕ × ℕ × ℕ) → ℕ → List (Placement α) → List (Placement α)
  | [], _, config => config
  | c :: rest, cover, config =>
    let newconfig := buildCandidate n m x y c
    if (newconfig.length : ℤ) = minimum then newconfig
    else if newconfig.length < cover then
      searchLoop n m x y minimum rest newconfig.length newconfig
    else searchLoop n m x y minimum rest cover config

/-- Function `complex_cover(n, m, x, y)` from plakativ.py lines 170-301: the
four-corner-blocks heuristic cover.  Starts from the simple cover, returns
it at once if it meets the theoretical minimum `ceil(n*m/(x*y))`, and
otherwise searches all corner-block candidates. -/
def complex_cover (n m x y : α) : List (Placement α) :=
  let numRotations : ℕ := if x = y then 1 else if n = m then 3 else 5
  let minimum : ℤ := ⌈n * m / (x * y)⌉
  let config := (simple_cover n m x y).1
  if (config.length : ℤ) = minimum then config
  else searchLoop n m x y minimum (coverCandidates n m x y numRotations)
    config.length config

end Tilers

section Resolver

variable {α : Type*} [LinearOrderedField α] [FloorRing α]

/-- The layout dictionary built by `Plakativ.compute_layout`
(plakativ.py lines 358-364, 516-605): output page size, borders, overall
bounding box, poster position, sheet placements and poster size. -/
structure Layout (α : Type*) where
  output_pagesize : α × α
  border_top : α
  border_right : α
  border_bottom : α
  border_left : α
  overallsize : α × α
  posterpos : α × α
  positions : List (Placement α)
  postersize : α × α
deriving DecidableEq

/-- Fit a poster of the source aspect ratio `H/W` into a `w`-by-`h` box,
width first: `poster_height = poster_width*H/W`, clamped to the box height
(plakativ.py lines 378-382, 409-416).  A zero divisor raises
`ZeroDivisionError` exactly where the Python division would. -/
def fitWidth (W H w h : α) : Except PyError (α × α) := do
  if W = 0 then throw PyError.zeroDivisionError
  let ph := w * H / W
  if ph > h then do
    if H = 0 then throw PyError.zeroDivisionError
    pure (h * W / H, h)
  else pure (w, ph)

/-- Mode `"size"` poster-size resolution (plakativ.py lines 376-393): fit
the source page into the requested box in both box orientations and keep
the orientation with the larger covered area (strictly-greater comparison,
so ties pick the landscape result). -/
def fitInBox (W H bw bh : α) : Except PyError (α × α) := do
  let p ← fitWidth W H bw bh
  let l ← fitWidth W H bh bw
  if p.1 * p.2 > l.1 * l.2 then pure p else pure l

/-- The border-overhang scan of the complex-strategy branch (plakativ.py
lines 572-599): the largest overshoot of any placed sheet beyond the
poster rectangle on each side, as `(top, right, bottom, left)`. -/
def overhang (printW printH posterW posterH bt br bb bl : α)
    (ps : List (Placement α)) : α × α × α × α :=
  ps.foldl (fun acc c =>
    let (pt, pr, pb, pl) := acc
    let (posx, posy, p) := c
    if p then
      let top := posy - bt
      let pt := if top < 0 ∧ pt < -top then -top else pt
      let right := posx + printW + br - posterW
      let pr := if 0 < right ∧ pr < right then right else pr
      let bottom := posy + printH + bb - posterH
      let pb := if 0 < bottom ∧ pb < bottom then bottom else pb
      let left := posx - bl
      let pl := if left < 0 ∧ pl < -left then -left else pl
      (pt, pr, pb, pl)
    else
      let top := posy - bl
      let pt := if top < 0 ∧ pt < -top then -top else pt
      let right := posx + printH + bt - posterW
      let pr := if 0 < right ∧ pr < right then right else pr
      let bottom := posy + printW + br - posterH
      let pb := if 0 < bottom ∧ pb < bottom then bottom else pb
      let left := posx - bb
      let pl := if left < 0 ∧ pl < -left then -left else pl
      (pt, pr, pb, pl)) (0, 0, 0, 0)

/-- The mode-independent tail of `compute_layout` (plakativ.py lines
497-608): choose the sheet orientation, lay the simple grid centered on
the poster, and under the complex strategy replace it by the complex cover
when that one is strictly smaller, recomputing the bounding box from the
overhang scan. -/
def layoutTail (posterW posterH printW printH bt br bb bl : α)
    (pagesize : α × α) (strategy : Strategy) : Except PyError (Layout α) := do
  if printW = 0 ∨ printH = 0 then throw PyError.zeroDivisionError
  let pxp : ℤ := ⌈posterW / printW⌉
  let pyp : ℤ := ⌈posterH / printH⌉
  let pxl : ℤ := ⌈posterW / printH⌉
  let pyl : ℤ := ⌈posterH / printW⌉
  let portrait : Bool := !(pxl * pyl < pxp * pyp)
  let pages_x : ℤ := if pxl * pyl < pxp * pyp then pxl else pxp
  let pages_y : ℤ := if pxl * pyl < pxp * pyp then pyl else pyp
  let overallsize : α × α :=
    if portrait then
      ((pages_x : α) * printW + (br + bl), (pages_y : α) * printH + (bt + bb))
    else
      ((pages_x : α) * printH + (bt + bb), (pages_y : α) * printW + (br + bl))
  let posterpos : α × α :=
    if portrait then
      (bl + ((pages_x : α) * printW - posterW) / 2,
       bt + ((pages_y : α) * printH - posterH) / 2)
    else
      (bb + ((pages_x : α) * printH - posterW) / 2,
       br + ((pages_y : α) * printW - posterH) / 2)
  let positions : List (Placement α) :=
    (List.range pages_y.toNat).flatMap fun yy =>
      (List.range pages_x.toNat).map fun xx =>
        if portrait then
          (((xx : ℕ) : α) * printW - ((pages_x : α) * printW - posterW) / 2,
           ((yy : ℕ) : α) * printH - ((pages_y : α) * printH - posterH) / 2, true)
        else
          (((xx : ℕ) : α) * printH - ((pages_x : α) * printH - posterW) / 2,
           ((yy : ℕ) : α) * printW - ((pages_y : α) * printW - posterH) / 2, false)
  let final : List (Placement α) × (α × α) × (α × α) :=
    if strategy = Strategy.complex then
      let positions_complex := complex_cover posterW posterH printW printH
      if positions_complex.length < positions.length then
        let ov := overhang printW printH posterW posterH bt br bb bl positions_complex
        (positions_complex,
         (posterW + ov.2.2.2 + ov.2.1, posterH + ov.1 + ov.2.2.1),
         (ov.2.2.2, ov.1))
      else (positions, overallsize, posterpos)
    else (positions, overallsize, posterpos)
  pure
    { output_pagesize := pagesize
      border_top := bt
      border_right := br
      border_bottom := bb
      border_left := bl
      overallsize := final.2.1
      posterpos := final.2.2
      positions := final.1
      postersize := (posterW, posterH) }

/-- Function `compute_layout` in mode `"size"` (plakativ.py lines 346-399, 497-622):
resolve the box fit, build the layout, and return the
`(postersize, mult, npages)` triple, where `postersize` is the unchanged
input box, `mult` the recomputed area multiplier and `npages` the number
of stored placements. -/
def computeLayoutSize (W H bw bh pw ph bt br bb bl : α) (strategy : Strategy) :
    Except PyError (Layout α × ((α × α) × α × ℕ)) := do
  let printW := pw - (bl + br)
  let printH := ph - (bt + bb)
  let p ← fitInBox W H bw bh
  let lay ← layoutTail p.1 p.2 printW printH bt br bb bl (pw, ph) strategy
  if W * H = 0 then throw PyError.zeroDivisionError
  pure (lay, ((bw, bh), p.1 * p.2 / (W * H), lay.positions.length))

/-- The candidate `(x, y)` sheet-grid pairs visited by the brute-force
search of mode `"npages"` (plakativ.py lines 405-406), in source order. -/
def npagesCands (np : ℕ) : List (ℕ × ℕ) :=
  (List.range np).flatMap fun x => (List.range np).map fun y => (x + 1, y + 1)

/-- The body of the brute-force search of mode `"npages"` (plakativ.py
lines 403-437): for every `(x, y)` with `x*y ≤ npages` try the portrait
and the landscape grid and keep the largest fitted poster area, carried as
`(best_area, best)`. -/
def bruteLoop (W H printW printH : α) (np : ℕ) :
    List (ℕ × ℕ) → α × Option (α × α) → Except PyError (α × Option (α × α))
  | [], st => pure st
  | c :: rest, st => do
    if c.1 * c.2 > np then bruteLoop W H printW printH np rest st
    else
      let pP ← fitWidth W H (((c.1 : ℕ) : α) * printW) (((c.2 : ℕ) : α) * printH)
      let st1 := if pP.1 * pP.2 > st.1 then (pP.1 * pP.2, some pP) else st
      let pL ← fitWidth W H (((c.1 : ℕ) : α) * printH) (((c.2 : ℕ) : α) * printW)
      let st2 := if pL.1 * pL.2 > st1.1 then (pL.1 * pL.2, some pL) else st1
      bruteLoop W H printW printH np rest st2

/-- Function `compute_layout` in mode `"npages"` with the simple strategy
(plakativ.py lines 400-439, 497-622): brute-force the largest printable
poster, crash with a `TypeError` when the search found nothing (the
`poster_width, poster_height = best` unpacking of `None`, line 439), then
build the layout.  The returned triple keeps the caller-supplied `npages`
unchanged (lines 616-618). -/
def computeLayoutNpagesSimple (W H : α) (np : ℕ) (pw ph bt br bb bl : α) :
    Except PyError (Layout α × ((α × α) × α × ℕ)) := do
  let printW := pw - (bl + br)
  let printH := ph - (bt + bb)
  let st ← bruteLoop W H printW printH np (npagesCands np) (0, none)
  match st.2 with
  | none => throw PyError.typeError
  | some p => do
    let lay ← layoutTail p.1 p.2 printW printH bt br bb bl (pw, ph) Strategy.simple
    if W * H = 0 then throw PyError.zeroDivisionError
    pure (lay, ((p.1, p.2), p.1 * p.2 / (W * H), np))

/-- The bisection loop of the complex strategy in mode `"npages"`
(plakativ.py lines 474-489): narrow the `[min_area_mult, max_area_mult]`
bracket on the poster area multiplier, moving `max` down when the complex
cover at the midpoint needs more than `npages` sheets and `min` up
otherwise, until the bracket is narrower than 0.001; the result is the
final `min_area_mult`.  `cnt mult` stands for
`len(complex_cover(sqrt(mult)*W, sqrt(mult)*H, printW, printH))`. -/
def bisectLoop [FloorRing α] (cnt : α → ℕ) (np : ℕ) (minM maxM : α) : α :=
  if h : |minM - maxM| < 1 / 1000 then minM
  else
    let mid := (minM + maxM) / 2
    if cnt mid > np then bisectLoop cnt np minM mid
    else bisectLoop cnt np mid maxM
termination_by ⌊|minM - maxM| * 1000⌋.toNat
decreasing_by
  all_goals
    rw [not_lt] at h
    have e1 : minM - (minM + maxM) / 2 = (minM - maxM) / 2 := by ring
    have e2 : (minM + maxM) / 2 - maxM = (minM - maxM) / 2 := by ring
    have habs : |(minM - maxM) / 2| = |minM - maxM| / 2 := by
      rw [abs_div]
      norm_num
    have h1 : (1 : α) ≤ |minM - maxM| * 1000 := by linarith
    have hfl : (1 : ℤ) ≤ ⌊|minM - maxM| * 1000⌋ := by
      rwa [Int.le_floor, Int.cast_one]
    have hup : |minM - maxM| * 1000 < ⌊|minM - maxM| * 1000⌋ + 1 :=
      Int.lt_floor_add_one _
    have hcast : (1 : α) ≤ (⌊|minM - maxM| * 1000⌋ : α) := by exact_mod_cast hfl
    have hdec : ⌊|minM - maxM| / 2 * 1000⌋ < ⌊|minM - maxM| * 1000⌋ := by
      rw [Int.floor_lt]
      linarith
    simp only [e1, e2, habs]
    omega

/-- Function `compute_layout` in mode `"npages"` with the complex strategy
(plakativ.py lines 400-492, 562-622), abstracted over the tiler counts at
the square-root-scaled poster: since the bisection rescales the poster to
`(sqrt(mult)*W, sqrt(mult)*H)` — an irrational point of an otherwise
rational computation — the sheet count of the complex cover at area
multiplier `mult` is passed in as `cntC mult` and the simple grid count of
the layout tail as `cntS mult`.  The result models
`(poster area, len(layout positions), returned npages)`: the poster area
is `W*H*min_area_mult` exactly, the position count is the complex count
when it beats the simple grid (lines 562-568), and the returned sheet
count is the caller-supplied `npages` (lines 616-618). -/
def computeLayoutNpagesComplexAbs [FloorRing α] (W H : α) (np : ℕ)
    (pw ph bt br bb bl : α) (cntC cntS : α → ℕ) : Except PyError (α × ℕ × ℕ) := do
  let printW := pw - (bl + br)
  let printH := ph - (bt + bb)
  let st ← bruteLoop W H printW printH np (npagesCands np) (0, none)
  match st.2 with
  | none => throw PyError.typeError
  | some p => do
    if W * H = 0 then throw PyError.zeroDivisionError
    let min_area_mult := p.1 * p.2 / (W * H) * (9999 / 10000)
    let max_area_mult := (np : α) * printW * printH / (W * H)
    let final := bisectLoop cntC np min_area_mult max_area_mult
    let c := cntC final
    let s := cntS final
    pure (W * H * final, (if c < s then c else s), np)

end Resolver

section RealResolver

/-- Mode `"mult"` poster-size resolution (plakativ.py lines 394-397):
`area = W*H*mult`, `poster_width = sqrt(area*W/H)`,
`poster_height = sqrt(area*H/W)`. -/
noncomputable def multPosterSize (W H f : ℝ) : ℝ × ℝ :=
  (Real.sqrt (W * H * f * W / H), Real.sqrt (W * H * f * H / W))

/-- Function `compute_layout` in mode `"mult"` (plakativ.py lines 394-397, 497-622):
resolve the poster size from the area multiplier, build the layout and
return `(postersize, mult, npages)` with the input multiplier unchanged
and `npages` the number of stored placements (lines 613-615). -/
noncomputable def computeLayoutMult (W H f pw ph bt br bb bl : ℝ)
    (strategy : Strategy) : Except PyError (Layout ℝ × ((ℝ × ℝ) × ℝ × ℕ)) := do
  let printW := pw - (bl + br)
  let printH := ph - (bt + bb)
  if H = 0 ∨ W = 0 then throw PyError.zeroDivisionError
  if W * H * f * W / H < 0 ∨ W * H * f * H / W < 0 then throw PyError.valueError
  let p := multPosterSize W H f
  let lay ← layoutTail p.1 p.2 printW printH bt br bb bl (pw, ph) strategy
  pure (lay, ((p.1, p.2), f, lay.positions.length))

end RealResolver

section Accessors

/-- The placement list stored in a successful `compute_layout` result
(empty for a raised error). -/
def positionsOf (r : Except PyError (Layout ℚ × ((ℚ × ℚ) × ℚ × ℕ))) :
    List (Placement ℚ) :=
  match r with
  | Except.ok v => v.1.positions
  | Except.error _ => []

/-- The sheet-count component of the triple returned by a successful
`compute_layout` (0 for a raised error). -/
def npagesOf (r : Except PyError (Layout ℚ × ((ℚ × ℚ) × ℚ × ℕ))) : ℕ :=
  match r with
  | Except.ok v => v.2.2.2
  | Except.error _ => 0

end Accessors

section GridLemmas

variable {α : Type*} [LinearOrderedField α] [FloorRing α]

theorem grid_succ (pX k : ℕ) (sx sy : α) (p : Bool) :
    grid pX (k + 1) sx sy p =
      grid pX k sx sy p ++
        (List.range pX).map (fun px => (((px : ℕ) : α) * sx, ((k : ℕ) : α) * sy, p)) := by
  simp [grid, List.range_succ]

theorem grid_length (pX pY : ℕ) (sx sy : α) (p : Bool) :
    (grid pX pY sx sy p).length = pY * pX := by
  induction pY with
  | zero => simp [grid]
  | succ k ih =>
    rw [grid_succ, List.length_append, ih, List.length_map, List.length_range,
      Nat.succ_mul]

theorem grid_getElem (pX pY : ℕ) (sx sy : α) (p : Bool) :
    ∀ py, py < pY → ∀ px, px < pX →
      (grid pX pY sx sy p)[py * pX + px]? = some (((px : ℕ) : α) * sx, ((py : ℕ) : α) * sy, p) := by
  induction pY with
  | zero => omega
  | succ k ih =>
    intro py hpy px hpx
    rw [grid_succ, List.getElem?_append]
    rcases Nat.lt_succ_iff_lt_or_eq.mp hpy with h | h
    · have hidx : py * pX + px < (grid pX k sx sy p).length := by
        rw [grid_length]
        calc py * pX + px < py * pX + pX := by omega
        _ = (py + 1) * pX := by ring
        _ ≤ k * pX := Nat.mul_le_mul_right pX h
      rw [if_pos hidx]
      exact ih py h px hpx
    · subst h
      have hlen : (grid pX py sx sy p).length = py * pX := grid_length ..
      rw [if_neg (by omega)]
      rw [hlen, Nat.add_sub_cancel_left]
      simp [List.getElem?_map, List.getElem?_range, hpx]

theorem grid_mem (pX pY : ℕ) (sx sy : α) (p : Bool) {k l : ℕ}
    (hk : k < pX) (hl : l < pY) :
    (((k : ℕ) : α) * sx, ((l : ℕ) : α) * sy, p) ∈ grid pX pY sx sy p := by
  simp only [grid, List.mem_flatMap, List.mem_map, List.mem_range]
  exact ⟨l, hl, k, hk, rfl⟩

theorem le_ceil_mul {n x : α} (hx : 0 < x) : n ≤ (⌈n / x⌉ : α) * x := by
  have h := mul_le_mul_of_nonneg_right (Int.le_ceil (n / x)) (le_of_lt hx)
  rwa [div_mul_cancel₀ n (ne_of_gt hx)] at h

theorem ceil_div_pos {n x : α} (hn : 0 < n) (hx : 0 < x) : 0 < ⌈n / x⌉ :=
  Int.ceil_pos.mpr (div_pos hn hx)

theorem toNat_mul_of_nonneg {a b : ℤ} (ha : 0 ≤ a) (hb : 0 ≤ b) :
    (a * b).toNat = a.toNat * b.toNat := by
  lift a to ℕ using ha
  lift b to ℕ using hb
  exact_mod_cast rfl

theorem coverIndex {x n pc : α} (pX : ℕ) (hx : 0 < x) (h0 : 0 ≤ pc)
    (hn : pc ≤ n) (hcov : n ≤ (pX : α) * x) (hpX : 1 ≤ pX) :
    ∃ k : ℕ, k < pX ∧ (k : α) * x ≤ pc ∧ pc ≤ (k : α) * x + x := by
  have hq0 : (0 : ℤ) ≤ ⌊pc / x⌋ := Int.floor_nonneg.mpr (div_nonneg h0 (le_of_lt hx))
  by_cases hc : ⌊pc / x⌋.toNat ≤ pX - 1
  · refine ⟨⌊pc / x⌋.toNat, by omega, ?_, ?_⟩
    · have hfl : (⌊pc / x⌋ : α) ≤ pc / x := Int.floor_le _
      have hcast : ((⌊pc / x⌋.toNat : ℕ) : α) = ((⌊pc / x⌋ : ℤ) : α) := by
        exact_mod_cast Int.toNat_of_nonneg hq0
      rw [hcast]
      calc ((⌊pc / x⌋ : ℤ) : α) * x ≤ pc / x * x :=
        mul_le_mul_of_nonneg_right hfl (le_of_lt hx)
      _ = pc := div_mul_cancel₀ pc (ne_of_gt hx)
    · have hfl : pc / x < (⌊pc / x⌋ : α) + 1 := Int.lt_floor_add_one _
      have hcast : ((⌊pc / x⌋.toNat : ℕ) : α) = ((⌊pc / x⌋ : ℤ) : α) := by
        exact_mod_cast Int.toNat_of_nonneg hq0
      rw [hcast]
      have h2 : pc < ((⌊pc / x⌋ : ℤ) : α) * x + x := by
        have := mul_lt_mul_of_pos_right hfl hx
        rw [div_mul_cancel₀ pc (ne_of_gt hx)] at this
        linarith [this]
      linarith [h2]
  · refine ⟨pX - 1, by omega, ?_, ?_⟩
    · have hge : (pX : ℤ) ≤ ⌊pc / x⌋ := by omega
      have hge2 : ((pX : ℕ) : α) ≤ pc / x := by
        calc ((pX : ℕ) : α) = (((pX : ℕ) : ℤ) : α) := by push_cast; ring
        _ ≤ ((⌊pc / x⌋ : ℤ) : α) := by exact_mod_cast hge
        _ ≤ pc / x := Int.floor_le _
      have hge3 : ((pX : ℕ) : α) * x ≤ pc := by
        have := mul_le_mul_of_nonneg_right hge2 (le_of_lt hx)
        rwa [div_mul_cancel₀ pc (ne_of_gt hx)] at this
      have hcast : (((pX - 1 : ℕ) : ℕ) : α) = ((pX : ℕ) : α) - 1 := by
        have : ((pX - 1 : ℕ) : α) + 1 = ((pX : ℕ) : α) := by
          exact_mod_cast congrArg (Nat.cast : ℕ → α) (Nat.succ_pred_eq_of_pos hpX)
        linarith [this]
      rw [hcast]
      nlinarith [hge3, hx]
    · have hcast : (((pX - 1 : ℕ) : ℕ) : α) = ((pX : ℕ) : α) - 1 := by
        have : ((pX - 1 : ℕ) : α) + 1 = ((pX : ℕ) : α) := by
          exact_mod_cast congrArg (Nat.cast : ℕ → α) (Nat.succ_pred_eq_of_pos hpX)
        linarith [this]
      rw [hcast]
      calc pc ≤ n := hn
      _ ≤ (pX : α) * x := hcov
      _ = ((pX : α) - 1) * x + x := by ring

theorem toNat_cast_div_ceil {n x : α} (hn : 0 < n) (hx : 0 < x) :
    ((⌈n / x⌉.toNat : ℕ) : α) = ((⌈n / x⌉ : ℤ) : α) := by
  exact_mod_cast Int.toNat_of_nonneg (le_of_lt (ceil_div_pos hn hx))

theorem grid_branch_facts (n m x y : α) (b : Bool) (hn : 0 < n) (hm : 0 < m)
    (hx : 0 < x) (hy : 0 < y) :
    (grid ⌈n / x⌉.toNat ⌈m / y⌉.toNat x y b).length = (⌈n / x⌉ * ⌈m / y⌉).toNat ∧
    (∀ py, py < ⌈m / y⌉.toNat → ∀ px, px < ⌈n / x⌉.toNat →
      (grid ⌈n / x⌉.toNat ⌈m / y⌉.toNat x y b)[py * ⌈n / x⌉.toNat + px]? =
        some (((px : ℕ) : α) * x, ((py : ℕ) : α) * y, b)) ∧
    (∀ p q : α, 0 ≤ p → p ≤ n → 0 ≤ q → q ≤ m →
      ∃ c ∈ grid ⌈n / x⌉.toNat ⌈m / y⌉.toNat x y b,
        c.1 ≤ p ∧ p ≤ c.1 + x ∧ c.2.1 ≤ q ∧ q ≤ c.2.1 + y ∧ c.2.2 = b) := by
  have hpx : 0 < ⌈n / x⌉ := ceil_div_pos hn hx
  have hpy : 0 < ⌈m / y⌉ := ceil_div_pos hm hy
  refine ⟨?_, grid_getElem _ _ _ _ _, ?_⟩
  · rw [grid_length, toNat_mul_of_nonneg (le_of_lt hpx) (le_of_lt hpy)]
    ring
  · intro p q hp0 hpn hq0 hqm
    have hcovx : n ≤ ((⌈n / x⌉.toNat : ℕ) : α) * x := by
      rw [toNat_cast_div_ceil hn hx]
      exact le_ceil_mul hx
    have hcovy : m ≤ ((⌈m / y⌉.toNat : ℕ) : α) * y := by
      rw [toNat_cast_div_ceil hm hy]
      exact le_ceil_mul hy
    obtain ⟨k, hk, hk1, hk2⟩ :=
      coverIndex ⌈n / x⌉.toNat hx hp0 hpn hcovx (by omega)
    obtain ⟨l, hl, hl1, hl2⟩ :=
      coverIndex ⌈m / y⌉.toNat hy hq0 hqm hcovy (by omega)
    exact ⟨(((k : ℕ) : α) * x, ((l : ℕ) : α) * y, b), grid_mem _ _ _ _ _ hk hl,
      hk1, hk2, hl1, hl2, rfl⟩

end GridLemmas

section ClaimC1

/-- Claim C1: for strictly positive poster size (n, m) and printable sheet
size (x, y), `simple_cover` returns exactly
`ceil(n/x')*ceil(m/y')` placements for the orientation (x', y') (among
(x, y) and (y, x)) minimising that product, with ties choosing the
unrotated orientation; the placements are emitted row-major (y outer, x
inner) at integer multiples of the chosen printable dimensions; the
returned covered size is componentwise at least (n, m); and every point of
the poster rectangle lies inside some placed printable rectangle. -/
theorem c1_simple_cover_correct (n m x y : ℚ) (hn : 0 < n) (hm : 0 < m)
    (hx : 0 < x) (hy : 0 < y) :
    (simple_cover n m x y).1.length =
      (min (⌈n / x⌉ * ⌈m / y⌉) (⌈n / y⌉ * ⌈m / x⌉)).toNat ∧
    (⌈n / x⌉ * ⌈m / y⌉ ≤ ⌈n / y⌉ * ⌈m / x⌉ →
      ∀ py, py < ⌈m / y⌉.toNat → ∀ px, px < ⌈n / x⌉.toNat →
        (simple_cover n m x y).1[py * ⌈n / x⌉.toNat + px]? =
          some ((px : ℚ) * x, (py : ℚ) * y, true)) ∧
    (⌈n / y⌉ * ⌈m / x⌉ < ⌈n / x⌉ * ⌈m / y⌉ →
      ∀ py, py < ⌈m / x⌉.toNat → ∀ px, px < ⌈n / y⌉.toNat →
        (simple_cover n m x y).1[py * ⌈n / y⌉.toNat + px]? =
          some ((px : ℚ) * y, (py : ℚ) * x, false)) ∧
    n ≤ (simple_cover n m x y).2.1 ∧ m ≤ (simple_cover n m x y).2.2 ∧
    (∀ p q : ℚ, 0 ≤ p → p ≤ n → 0 ≤ q → q ≤ m →
      ∃ c ∈ (simple_cover n m x y).1,
        c.1 ≤ p ∧ c.2.1 ≤ q ∧
        (c.2.2 = true → p ≤ c.1 + x ∧ q ≤ c.2.1 + y) ∧
        (c.2.2 = false → p ≤ c.1 + y ∧ q ≤ c.2.1 + x)) := by
  by_cases hor : ⌈n / x⌉ * ⌈m / y⌉ ≤ ⌈n / y⌉ * ⌈m / x⌉
  · obtain ⟨hlen, hget, hcov⟩ := grid_branch_facts n m x y true hn hm hx hy
    have hsc : simple_cover n m x y =
        (grid ⌈n / x⌉.toNat ⌈m / y⌉.toNat x y true,
          ((⌈n / x⌉ : ℚ) * x, (⌈m / y⌉ : ℚ) * y)) := by
      simp only [simple_cover, if_pos hor]
    rw [hsc]
    refine ⟨?_, fun _ => hget, fun hlt => absurd hor (not_le.mpr hlt), ?_, ?_, ?_⟩
    · rw [min_eq_left hor]
      exact hlen
    · exact le_ceil_mul hx
    · exact le_ceil_mul hy
    · intro p q hp0 hpn hq0 hqm
      obtain ⟨c, hmem, h1, h2, h3, h4, h5⟩ := hcov p q hp0 hpn hq0 hqm
      refine ⟨c, hmem, h1, h3, fun _ => ⟨h2, h4⟩, ?_⟩
      intro hfalse
      rw [h5] at hfalse
      cases hfalse
  · have hlt : ⌈n / y⌉ * ⌈m / x⌉ < ⌈n / x⌉ * ⌈m / y⌉ := not_le.mp hor
    obtain ⟨hlen, hget, hcov⟩ := grid_branch_facts n m y x false hn hm hy hx
    have hsc : simple_cover n m x y =
        (grid ⌈n / y⌉.toNat ⌈m / x⌉.toNat y x false,
          ((⌈n / y⌉ : ℚ) * y, (⌈m / x⌉ : ℚ) * x)) := by
      simp only [simple_cover, if_neg hor]
    rw [hsc]
    refine ⟨?_, fun hle => absurd hle hor, fun _ => hget, ?_, ?_, ?_⟩
    · rw [min_eq_right (le_of_lt hlt)]
      exact hlen
    · exact le_ceil_mul hy
    · exact le_ceil_mul hx
    · intro p q hp0 hpn hq0 hqm
      obtain ⟨c, hmem, h1, h2, h3, h4, h5⟩ := hcov p q hp0 hpn hq0 hqm
      refine ⟨c, hmem, h1, h3, ?_, fun _ => ⟨h2, h4⟩⟩
      intro htrue
      rw [h5] at htrue
      cases htrue

/-- Witness for C1 at the concrete input n = m = x = y = 1: the
hypotheses hold and the placement count is the minimising ceiling
product. -/
theorem c1_simple_cover_correct_witness :
    (0 : ℚ) < 1 ∧
      (simple_cover (1 : ℚ) 1 1 1).1.length =
        (min (⌈(1 : ℚ) / 1⌉ * ⌈(1 : ℚ) / 1⌉) (⌈(1 : ℚ) / 1⌉ * ⌈(1 : ℚ) / 1⌉)).toNat :=
  ⟨by norm_num,
    (c1_simple_cover_correct 1 1 1 1 (by norm_num) (by norm_num) (by norm_num)
      (by norm_num)).1⟩

end ClaimC1

section TilerComparison

variable {α : Type*} [LinearOrderedField α] [FloorRing α]

theorem ceil_mul_le {a b : α} (ha : 0 < a) (hb : 0 < b) :
    ⌈a * b⌉ ≤ ⌈a⌉ * ⌈b⌉ := by
  rw [Int.ceil_le]
  push_cast
  have h1 : a ≤ (⌈a⌉ : α) := Int.le_ceil a
  have h2 : b ≤ (⌈b⌉ : α) := Int.le_ceil b
  nlinarith [h1, h2, ha, hb]

theorem minimum_le_simple_len {n m x y : α} (hn : 0 < n) (hm : 0 < m)
    (hx : 0 < x) (hy : 0 < y) :
    ⌈n * m / (x * y)⌉ ≤ ((simple_cover n m x y).1.length : ℤ) := by
  by_cases hor : ⌈n / x⌉ * ⌈m / y⌉ ≤ ⌈n / y⌉ * ⌈m / x⌉
  · have hlen : (simple_cover n m x y).1.length = (⌈n / x⌉ * ⌈m / y⌉).toNat := by
      simp only [simple_cover, if_pos hor, grid_length]
      rw [toNat_mul_of_nonneg (le_of_lt (ceil_div_pos hn hx))
        (le_of_lt (ceil_div_pos hm hy))]
      ring
    rw [hlen, Int.toNat_of_nonneg
      (mul_nonneg (le_of_lt (ceil_div_pos hn hx)) (le_of_lt (ceil_div_pos hm hy)))]
    calc ⌈n * m / (x * y)⌉ = ⌈n / x * (m / y)⌉ := by rw [div_mul_div_comm]
    _ ≤ ⌈n / x⌉ * ⌈m / y⌉ := ceil_mul_le (div_pos hn hx) (div_pos hm hy)
  · have hlen : (simple_cover n m x y).1.length = (⌈n / y⌉ * ⌈m / x⌉).toNat := by
      simp only [simple_cover, if_neg hor, grid_length]
      rw [toNat_mul_of_nonneg (le_of_lt (ceil_div_pos hn hy))
        (le_of_lt (ceil_div_pos hm hx))]
      ring
    rw [hlen, Int.toNat_of_nonneg
      (mul_nonneg (le_of_lt (ceil_div_pos hn hy)) (le_of_lt (ceil_div_pos hm hx)))]
    calc ⌈n * m / (x * y)⌉ = ⌈n / y * (m / x)⌉ := by
          rw [div_mul_div_comm]
          ring_nf
    _ ≤ ⌈n / y⌉ * ⌈m / x⌉ := ceil_mul_le (div_pos hn hy) (div_pos hm hx)

theorem searchLoop_length_le (n m x y : α) (minimum : ℤ) (S : ℕ)
    (hmin : minimum ≤ (S : ℤ)) :
    ∀ (cands : List (ℕ × ℕ × ℕ × ℕ × ℕ)) (config : List (Placement α)),
      config.length ≤ S →
      (searchLoop n m x y minimum cands config.length config).length ≤ S := by
  intro cands
  induction cands with
  | nil =>
    intro config h
    simpa [searchLoop] using h
  | cons c rest ih =>
    intro config h
    by_cases h1 : ((buildCandidate n m x y c).length : ℤ) = minimum
    · simp only [searchLoop, if_pos h1]
      have : ((buildCandidate n m x y c).length : ℤ) ≤ (S : ℤ) := h1 ▸ hmin
      exact_mod_cast this
    · by_cases h2 : (buildCandidate n m x y c).length < config.length
      · simp only [searchLoop, if_neg h1, if_pos h2]
        exact ih (buildCandidate n m x y c) (le_trans (le_of_lt h2) h)
      · simp only [searchLoop, if_neg h1, if_neg h2]
        exact ih config h

/-- Claim C2: for all strictly positive inputs, the complex tiler never
uses more sheets than the simple tiler on the same inputs. -/
theorem c2_complex_le_simple (n m x y : ℚ) (hn : 0 < n) (hm : 0 < m)
    (hx : 0 < x) (hy : 0 < y) :
    (complex_cover n m x y).length ≤ (simple_cover n m x y).1.length := by
  have hmin : ⌈n * m / (x * y)⌉ ≤ (((simple_cover n m x y).1.length : ℕ) : ℤ) :=
    minimum_le_simple_len hn hm hx hy
  by_cases h : (((simple_cover n m x y).1.length : ℕ) : ℤ) = ⌈n * m / (x * y)⌉
  · simp only [complex_cover, if_pos h, le_refl]
  · simp only [complex_cover, if_neg h]
    exact searchLoop_length_le n m x y _ _ hmin _ _ (le_refl _)

/-- Witness for C2 at n = m = x = y = 1. -/
theorem c2_complex_le_simple_witness :
    (0 : ℚ) < 1 ∧
      (complex_cover (1 : ℚ) 1 1 1).length ≤ (simple_cover (1 : ℚ) 1 1 1).1.length :=
  ⟨by norm_num,
    c2_complex_le_simple 1 1 1 1 (by norm_num) (by norm_num) (by norm_num) (by norm_num)⟩

/-- Claim C3: when the simple cover already achieves the theoretical
minimum `ceil(n*m/(x*y))`, `complex_cover` returns exactly the
simple-cover configuration (and therefore exactly that minimal count)
without searching the orientation patterns. -/
theorem c3_complex_shortcut (n m x y : ℚ) (hn : 0 < n) (hm : 0 < m)
    (hx : 0 < x) (hy : 0 < y)
    (h : (((simple_cover n m x y).1.length : ℕ) : ℤ) = ⌈n * m / (x * y)⌉) :
    complex_cover n m x y = (simple_cover n m x y).1 ∧
      ((complex_cover n m x y).length : ℤ) = ⌈n * m / (x * y)⌉ := by
  have he : complex_cover n m x y = (simple_cover n m x y).1 := by
    simp only [complex_cover, if_pos h]
  exact ⟨he, by rw [he]; exact h⟩

/-- Witness for C3 at n = m = x = y = 1, where the simple cover has one
sheet and the theoretical minimum is one sheet. -/
theorem c3_complex_shortcut_witness :
    ((((simple_cover (1 : ℚ) 1 1 1).1.length : ℕ) : ℤ) = ⌈(1 : ℚ) * 1 / (1 * 1)⌉) ∧
      complex_cover (1 : ℚ) 1 1 1 = (simple_cover (1 : ℚ) 1 1 1).1 := by
  have hc : ⌈(1 : ℚ) * 1 / (1 * 1)⌉ = 1 := by norm_num
  have h1 : ⌈(1 : ℚ) / 1⌉ = 1 := by norm_num
  have hlen : (simple_cover (1 : ℚ) 1 1 1).1.length = 1 := by
    simp only [simple_cover, h1]
    norm_num [grid_length]
  have h : (((simple_cover (1 : ℚ) 1 1 1).1.length : ℕ) : ℤ) = ⌈(1 : ℚ) * 1 / (1 * 1)⌉ := by
    rw [hlen, hc]
    norm_num
  exact ⟨h,
    (c3_complex_shortcut 1 1 1 1 (by norm_num) (by norm_num) (by norm_num) (by norm_num) h).1⟩

end TilerComparison

section ClaimC5C6

theorem multPosterSize_eq {W H : ℝ} (f : ℝ) (hW : 0 < W) (hH : 0 < H) :
    multPosterSize W H f = (W * Real.sqrt f, H * Real.sqrt f) := by
  unfold multPosterSize
  have h1 : W * H * f * W / H = W ^ 2 * f := by
    field_simp
    ring
  have h2 : W * H * f * H / W = H ^ 2 * f := by
    field_simp
    ring
  rw [h1, h2, Real.sqrt_mul (sq_nonneg W), Real.sqrt_mul (sq_nonneg H),
    Real.sqrt_sq (le_of_lt hW), Real.sqrt_sq (le_of_lt hH)]

/-- Claim C5: mode `"mult"` resolves the poster to
`(sqrt(W*H*f*W/H), sqrt(W*H*f*H/W))`, whose area is exactly `f` times the
source area (in particular within the 1e-6 relative tolerance) and whose
aspect ratio equals the source aspect ratio. -/
theorem c5_mult_resolver (W H f : ℝ) (hW : 0 < W) (hH : 0 < H) (hf : 0 < f) :
    (multPosterSize W H f).1 = Real.sqrt (W * H * f * W / H) ∧
    (multPosterSize W H f).2 = Real.sqrt (W * H * f * H / W) ∧
    (multPosterSize W H f).1 * (multPosterSize W H f).2 / (W * H) = f ∧
    |(multPosterSize W H f).1 * (multPosterSize W H f).2 / (W * H) - f| ≤
      f * (1 / 1000000) ∧
    (multPosterSize W H f).1 * H = (multPosterSize W H f).2 * W := by
  have hr : (multPosterSize W H f).1 * (multPosterSize W H f).2 / (W * H) = f := by
    rw [multPosterSize_eq f hW hH]
    show W * Real.sqrt f * (H * Real.sqrt f) / (W * H) = f
    have hs : Real.sqrt f * Real.sqrt f = f := Real.mul_self_sqrt (le_of_lt hf)
    rw [show W * Real.sqrt f * (H * Real.sqrt f) =
      Real.sqrt f * Real.sqrt f * (W * H) from by ring, hs, mul_div_assoc,
      div_self (by positivity : (W : ℝ) * H ≠ 0), mul_one]
  refine ⟨rfl, rfl, hr, ?_, ?_⟩
  · rw [hr]
    simp only [sub_self, abs_zero]
    positivity
  · rw [multPosterSize_eq f hW hH]
    show W * Real.sqrt f * H = H * Real.sqrt f * W
    ring

/-- Witness for C5 at W = H = 1, f = 4. -/
theorem c5_mult_resolver_witness :
    (0 : ℝ) < 1 ∧
      (multPosterSize 1 1 4).1 * (multPosterSize 1 1 4).2 / ((1 : ℝ) * 1) = 4 :=
  ⟨by norm_num,
    (c5_mult_resolver 1 1 4 (by norm_num) (by norm_num) (by norm_num)).2.2.1⟩

theorem fitWidth_ok {α : Type*} [LinearOrderedField α] {W H w h : α}
    (hW : 0 < W) (hH : 0 < H) (hw : 0 < w) (hh : 0 < h) :
    ∃ p : α × α, fitWidth W H w h = Except.ok p ∧ 0 < p.1 ∧ 0 < p.2 ∧
      p.1 * H = p.2 * W ∧ p.1 ≤ w ∧ p.2 ≤ h := by
  by_cases hc : w * H / W > h
  · refine ⟨(h * W / H, h), ?_, by positivity, hh, ?_, ?_, le_refl h⟩
    · simp only [fitWidth, if_neg (ne_of_gt hW), if_pos hc, if_neg (ne_of_gt hH)]
      rfl
    · field_simp
    · have hc2 : h * W < w * H := by
        rw [gt_iff_lt, lt_div_iff₀ hW] at hc
        linarith [hc]
      have hlt : h * W / H < w := by
        rw [div_lt_iff₀ hH]
        linarith [hc2]
      exact le_of_lt hlt
  · refine ⟨(w, w * H / W), ?_, hw, ?_, ?_, le_refl w, not_lt.mp hc⟩
    · simp only [fitWidth, if_neg (ne_of_gt hW), if_neg hc]
      rfl
    · have : 0 < w * H / W := by positivity
      exact this
    · field_simp

theorem fitInBox_ok {α : Type*} [LinearOrderedField α] {W H bw bh : α}
    (hW : 0 < W) (hH : 0 < H) (hbw : 0 < bw) (hbh : 0 < bh) :
    ∃ p : α × α, fitInBox W H bw bh = Except.ok p ∧ 0 < p.1 ∧ 0 < p.2 ∧
      p.1 * H = p.2 * W ∧ p.1 * p.2 ≤ bw * bh := by
  obtain ⟨pP, hP, hP1, hP2, hPa, hPw, hPh⟩ := fitWidth_ok hW hH hbw hbh
  obtain ⟨pL, hL, hL1, hL2, hLa, hLw, hLh⟩ := fitWidth_ok hW hH hbh hbw
  by_cases hc : pP.1 * pP.2 > pL.1 * pL.2
  · refine ⟨pP, ?_, hP1, hP2, hPa, ?_⟩
    · simp only [fitInBox, hP, hL, Bind.bind, Except.bind, if_pos hc, Pure.pure,
        Except.pure]
    · exact mul_le_mul hPw hPh (le_of_lt hP2) (le_of_lt hbw)
  · refine ⟨pL, ?_, hL1, hL2, hLa, ?_⟩
    · simp only [fitInBox, hP, hL, Bind.bind, Except.bind, if_neg hc, Pure.pure,
        Except.pure]
    · have hle : pL.1 * pL.2 ≤ bh * bw :=
        mul_le_mul hLw hLh (le_of_lt hL2) (le_of_lt hbh)
      exact le_trans hle (le_of_eq (mul_comm bh bw))

theorem multPosterSize_roundtrip {W H a b : ℝ} (hW : 0 < W) (hH : 0 < H)
    (ha : 0 < a) (hb : 0 < b) (hasp : a * H = b * W) :
    multPosterSize W H (a * b / (W * H)) = (a, b) := by
  obtain rfl : b = a * H / W := by
    rw [eq_div_iff (ne_of_gt hW)]
    linarith [hasp]
  unfold multPosterSize
  have h1 : W * H * (a * (a * H / W) / (W * H)) * W / H = a ^ 2 := by
    field_simp
    ring
  have h2 : W * H * (a * (a * H / W) / (W * H)) * H / W = (a * H / W) ^ 2 := by
    field_simp
    ring
  rw [h1, h2, Real.sqrt_sq (le_of_lt ha), Real.sqrt_sq (le_of_lt hb)]

/-- Claim C6: resolving mode `"size"` (fit to box) to a poster size, then
feeding the resulting area multiplier back through mode `"mult"` on the
same source page, reproduces the same poster dimensions. -/
theorem c6_size_then_mult_roundtrip (W H bw bh : ℝ) (hW : 0 < W) (hH : 0 < H)
    (hbw : 0 < bw) (hbh : 0 < bh) :
    ∃ p : ℝ × ℝ, fitInBox W H bw bh = Except.ok p ∧
      multPosterSize W H (p.1 * p.2 / (W * H)) = p := by
  obtain ⟨p, hp, h1, h2, hasp, _⟩ := fitInBox_ok hW hH hbw hbh
  exact ⟨p, hp, multPosterSize_roundtrip hW hH h1 h2 hasp⟩

/-- Witness for C6 at W = H = 1 and a 2-by-2 box. -/
theorem c6_size_then_mult_roundtrip_witness :
    (0 : ℝ) < 1 ∧
      ∃ p : ℝ × ℝ, fitInBox (1 : ℝ) 1 2 2 = Except.ok p ∧
        multPosterSize 1 1 (p.1 * p.2 / ((1 : ℝ) * 1)) = p :=
  ⟨by norm_num,
    c6_size_then_mult_roundtrip 1 1 2 2 (by norm_num) (by norm_num) (by norm_num)
      (by norm_num)⟩

end ClaimC5C6

section ClaimC7

theorem ceil_nonpos_of_nonpos {α : Type*} [LinearOrderedField α] [FloorRing α]
    {a : α} (h : a ≤ 0) : ⌈a⌉ ≤ 0 :=
  Int.ceil_le.mpr (by exact_mod_cast h)

theorem layoutTail_negative_printable (posterW posterH printW printH : ℚ)
    (bt br bb bl : ℚ) (pagesize : ℚ × ℚ) (strategy : Strategy)
    (hpw : 0 < posterW) (hph : 0 < posterH) (hnw : printW < 0) (hnh : printH < 0) :
    ∃ lay : Layout ℚ,
      layoutTail posterW posterH printW printH bt br bb bl pagesize strategy =
        Except.ok lay ∧ lay.positions = [] := by
  have hyp : ⌈posterH / printH⌉ ≤ 0 :=
    ceil_nonpos_of_nonpos (le_of_lt (div_neg_of_pos_of_neg hph hnh))
  have hyl : ⌈posterH / printW⌉ ≤ 0 :=
    ceil_nonpos_of_nonpos (le_of_lt (div_neg_of_pos_of_neg hph hnw))
  have hcond : ¬(printW = 0 ∨ printH = 0) := by
    push_neg
    exact ⟨ne_of_lt hnw, ne_of_lt hnh⟩
  have hempty : ∀ py : ℤ, py ≤ 0 → ∀ pX : ℕ,
      (List.range py.toNat).flatMap
        (fun yy => (List.range pX).map
          (fun xx => ((0 : ℚ), (0 : ℚ), true))) = [] := by
    intro py hpy pX
    rw [Int.toNat_of_nonpos hpy]
    rfl
  simp only [layoutTail, if_neg hcond]
  by_cases hport : ⌈posterW / printH⌉ * ⌈posterH / printW⌉ <
      ⌈posterW / printW⌉ * ⌈posterH / printH⌉
  · simp only [if_pos hport]
    refine ⟨_, rfl, ?_⟩
    show (if strategy = Strategy.complex then _ else _ :
      List (Placement ℚ) × (ℚ × ℚ) × (ℚ × ℚ)).1 = []
    have hzero : (⌈posterH / printW⌉).toNat = 0 := Int.toNat_of_nonpos hyl
    by_cases hs : strategy = Strategy.complex
    · simp only [if_pos hs, hzero]
      simp
    · simp only [if_neg hs, hzero]
      simp
  · simp only [if_neg hport]
    refine ⟨_, rfl, ?_⟩
    show (if strategy = Strategy.complex then _ else _ :
      List (Placement ℚ) × (ℚ × ℚ) × (ℚ × ℚ)).1 = []
    have hzero : (⌈posterH / printH⌉).toNat = 0 := Int.toNat_of_nonpos hyp
    by_cases hs : strategy = Strategy.complex
    · simp only [if_pos hs, hzero]
      simp
    · simp only [if_neg hs, hzero]
      simp

theorem computeLayoutSize_negative_borders (W H bw bh pw ph bt br bb bl : ℚ)
    (strategy : Strategy) (hW : 0 < W) (hH : 0 < H) (hbw : 0 < bw)
    (hbh : 0 < bh) (hw : pw < bl + br) (hh : ph < bt + bb) :
    (computeLayoutSize W H bw bh pw ph bt br bb bl strategy).isOk = true ∧
      positionsOf (computeLayoutSize W H bw bh pw ph bt br bb bl strategy) = [] := by
  obtain ⟨p, hp, h1, h2, hasp, hle⟩ := fitInBox_ok hW hH hbw hbh
  obtain ⟨lay, hlay, hpos⟩ :=
    layoutTail_negative_printable p.1 p.2 (pw - (bl + br)) (ph - (bt + bb))
      bt br bb bl (pw, ph) strategy h1 h2 (by linarith) (by linarith)
  have hWH : ¬(W * H = 0) := by positivity
  constructor
  · simp only [computeLayoutSize, hp, hlay, Bind.bind, Except.bind, if_neg hWH,
      Pure.pure, Except.pure, Except.isOk, Except.toBool]
  · simp only [computeLayoutSize, hp, hlay, Bind.bind, Except.bind, if_neg hWH,
      Pure.pure, Except.pure, positionsOf]
    exact hpos

/-- Amended claim C7: the function `compute_layout` performs no border validation.
When the borders strictly exceed the sheet size on both axes (negative
printable area), the computation raises nothing and returns a layout with
an empty placement list; no `InvalidDimension` error exists in the code. -/
theorem c7_no_border_validation (W H bw bh pw ph bt br bb bl : ℚ)
    (strategy : Strategy) (hW : 0 < W) (hH : 0 < H) (hbw : 0 < bw)
    (hbh : 0 < bh) (hw : pw < bl + br) (hh : ph < bt + bb) :
    (computeLayoutSize W H bw bh pw ph bt br bb bl strategy).isOk = true ∧
      positionsOf (computeLayoutSize W H bw bh pw ph bt br bb bl strategy) = [] :=
  computeLayoutSize_negative_borders W H bw bh pw ph bt br bb bl strategy
    hW hH hbw hbh hw hh

/-- Witness for the amended C7 at source page 5-by-5, box 50-by-50, sheet
30-by-30 with 16 mm borders on every side. -/
theorem c7_no_border_validation_witness :
    ((30 : ℚ) < 16 + 16) ∧
      (computeLayoutSize (5 : ℚ) 5 50 50 30 30 16 16 16 16 Strategy.simple).isOk =
        true :=
  ⟨by norm_num,
    (c7_no_border_validation 5 5 50 50 30 30 16 16 16 16 Strategy.simple
      (by norm_num) (by norm_num) (by norm_num) (by norm_num) (by norm_num)
      (by norm_num)).1⟩

/-- Counterexample to claim C7 as stated: with a 30-by-30 sheet and 20 mm
borders on all sides (printable area negative on both axes) the mode
`"size"` computation does not raise any error before (or during) tiling —
it succeeds and stores an empty placement list. -/
theorem c7_counterexample :
    (computeLayoutSize (10 : ℚ) 10 100 100 30 30 20 20 20 20 Strategy.simple).isOk =
        true ∧
      positionsOf (computeLayoutSize (10 : ℚ) 10 100 100 30 30 20 20 20 20
        Strategy.simple) = [] :=
  computeLayoutSize_negative_borders 10 10 100 100 30 30 20 20 20 20 Strategy.simple
    (by norm_num) (by norm_num) (by norm_num) (by norm_num) (by norm_num)
    (by norm_num)

end ClaimC7

section ClaimC8

/-- Amended claim C8: for a sheet budget below 1 (`npages = 0`) the mode
`"npages"` computation does not reject the input before the brute-force
search; the search runs over an empty candidate list, leaves `best = None`,
and the computation then crashes with a `TypeError` while unpacking
`best` (plakativ.py line 439).  No `NoSolutionFound` rejection exists. -/
theorem c8_npages_zero_typeerror (W H pw ph bt br bb bl : ℚ) :
    computeLayoutNpagesSimple W H 0 pw ph bt br bb bl =
      Except.error PyError.typeError := rfl

/-- Counterexample to claim C8 as stated: at budget `n = 0` the
computation fails with the generic `TypeError` of unpacking `None` after
the (vacuous) search, not with a dedicated `NoSolutionFound` precondition
rejection — the error type of the embedded code has no such constructor. -/
theorem c8_counterexample :
    computeLayoutNpagesSimple (10 : ℚ) 10 0 10 10 0 0 0 0 =
        Except.error PyError.typeError ∧
      Except.error PyError.typeError ≠
        (Except.error PyError.zeroDivisionError :
          Except PyError (Layout ℚ × ((ℚ × ℚ) × ℚ × ℕ))) :=
  ⟨rfl, by simp⟩

end ClaimC8

section ClaimC9

theorem c9_fitWidth_portrait :
    fitWidth (210 : ℚ) 297 297 420 = Except.ok (9800 / 33, 420) := by
  simp only [fitWidth, Bind.bind, Except.bind, Pure.pure, Except.pure]
  norm_num

theorem c9_fitWidth_landscape :
    fitWidth (210 : ℚ) 297 420 297 = Except.ok (210, 297) := by
  simp only [fitWidth, Bind.bind, Except.bind, Pure.pure, Except.pure]
  norm_num

theorem c9_fitInBox :
    fitInBox (210 : ℚ) 297 297 420 = Except.ok (9800 / 33, 420) := by
  simp only [fitInBox, c9_fitWidth_portrait, c9_fitWidth_landscape, Bind.bind,
    Except.bind, Pure.pure, Except.pure]
  norm_num

theorem c9_layoutTail :
    layoutTail (9800 / 33 : ℚ) 420 170 257 20 20 20 20 (210, 297)
        Strategy.simple =
      Except.ok
        { output_pagesize := (210, 297)
          border_top := 20
          border_right := 20
          border_bottom := 20
          border_left := 20
          overallsize := (380, 554)
          posterpos := (1370 / 33, 67)
          positions := [(-710 / 33, -47, true), (4900 / 33, -47, true),
            (-710 / 33, 210, true), (4900 / 33, 210, true)]
          postersize := (9800 / 33, 420) } := by
  have e1 : ⌈(9800 / 33 : ℚ) / 170⌉ = 2 := by
    rw [Int.ceil_eq_iff]
    norm_num
  have e2 : ⌈(420 : ℚ) / 257⌉ = 2 := by
    rw [Int.ceil_eq_iff]
    norm_num
  have e3 : ⌈(9800 / 33 : ℚ) / 257⌉ = 2 := by
    rw [Int.ceil_eq_iff]
    norm_num
  have e4 : ⌈(420 : ℚ) / 170⌉ = 3 := by
    rw [Int.ceil_eq_iff]
    norm_num
  have t2 : (2 : ℤ).toNat = 2 := rfl
  have hstrat : (Strategy.simple = Strategy.complex) = False := by simp
  simp only [layoutTail, e1, e2, e3, e4, t2, hstrat, if_false, Bind.bind,
    Except.bind, Pure.pure, Except.pure]
  norm_num [List.range_succ]
  rw [show List.range (Int.toNat 2) = [0, 1] from rfl]
  norm_num [List.flatMap_cons, List.flatMap_nil]

/-- Claim C9: for source page 210mm-by-297mm, fit box 297mm-by-420mm,
output sheet 210mm-by-297mm, uniform 20mm borders and the simple strategy,
the computed layout stores exactly 4 placements, arranged as a 2-by-2
row-major grid (2 columns, 2 rows), all in the unrotated orientation. -/
theorem c9_concrete_scenario :
    positionsOf (computeLayoutSize (210 : ℚ) 297 297 420 210 297 20 20 20 20
        Strategy.simple) =
      [(-710 / 33, -47, true), (4900 / 33, -47, true),
        (-710 / 33, 210, true), (4900 / 33, 210, true)] ∧
    (positionsOf (computeLayoutSize (210 : ℚ) 297 297 420 210 297 20 20 20 20
        Strategy.simple)).length = 4 ∧
    positionsOf (computeLayoutSize (210 : ℚ) 297 297 420 210 297 20 20 20 20
        Strategy.simple) =
      (List.range 2).flatMap fun yy => (List.range 2).map fun xx =>
        (((xx : ℕ) : ℚ) * 170 - 710 / 33, ((yy : ℕ) : ℚ) * 257 - 47, true) := by
  have hres : positionsOf (computeLayoutSize (210 : ℚ) 297 297 420 210 297 20 20
      20 20 Strategy.simple) =
      [(-710 / 33, -47, true), (4900 / 33, -47, true),
        (-710 / 33, 210, true), (4900 / 33, 210, true)] := by
    simp only [computeLayoutSize, c9_fitInBox, Bind.bind, Except.bind]
    norm_num
    simp only [c9_layoutTail, Except.bind, Pure.pure, Except.pure]
    norm_num [positionsOf]
  refine ⟨hres, by rw [hres]; rfl, ?_⟩
  rw [hres]
  norm_num [List.range_succ]

end ClaimC9

section ClaimC10

theorem fitWidth_ne_ok {W H w h : ℚ} (hW : W ≠ 0) (hH : H ≠ 0) :
    ∃ p, fitWidth W H w h = Except.ok p := by
  by_cases hc : w * H / W > h
  · exact ⟨(h * W / H, h), by simp only [fitWidth, if_neg hW, if_pos hc, if_neg hH]; rfl⟩
  · exact ⟨(w, w * H / W), by simp only [fitWidth, if_neg hW, if_neg hc]; rfl⟩

theorem layoutTail_ok (posterW posterH printW printH bt br bb bl : ℚ)
    (pagesize : ℚ × ℚ) (strategy : Strategy)
    (hw : printW ≠ 0) (hh : printH ≠ 0) :
    ∃ lay, layoutTail posterW posterH printW printH bt br bb bl pagesize strategy =
      Except.ok lay := by
  have hcond : ¬(printW = 0 ∨ printH = 0) := by
    push_neg
    exact ⟨hw, hh⟩
  exact ⟨_, by simp only [layoutTail, if_neg hcond]; rfl⟩

theorem bruteLoop_invariant (np : ℕ) {W H pw ph : ℚ}
    (hW : 0 < W) (hH : 0 < H) (hpw : 0 < pw) (hph : 0 < ph) :
    ∀ (cands : List (ℕ × ℕ)) (st : ℚ × Option (ℚ × ℚ)),
      0 ≤ st.1 → (0 < st.1 → st.2.isSome) →
      (∀ c ∈ cands, 1 ≤ c.1 ∧ 1 ≤ c.2) →
      ∃ stout, bruteLoop W H pw ph np cands st = Except.ok stout ∧
        st.1 ≤ stout.1 ∧ 0 ≤ stout.1 ∧ (0 < stout.1 → stout.2.isSome) ∧
        ((∃ c ∈ cands, c.1 * c.2 ≤ np) → 0 < stout.1) := by
  intro cands
  induction cands with
  | nil =>
    intro st h0 hsome hall
    refine ⟨st, rfl, le_refl _, h0, hsome, ?_⟩
    rintro ⟨c, hc, -⟩
    cases hc
  | cons c rest ih =>
    intro st h0 hsome hall
    have hc1 : 1 ≤ c.1 := (hall c (List.mem_cons_self c rest)).1
    have hc2 : 1 ≤ c.2 := (hall c (List.mem_cons_self c rest)).2
    have hallr : ∀ d ∈ rest, 1 ≤ d.1 ∧ 1 ≤ d.2 := fun d hd =>
      hall d (List.mem_cons_of_mem c hd)
    by_cases hskip : c.1 * c.2 > np
    · obtain ⟨stout, hout, hle, h0o, hso, hex⟩ := ih st h0 hsome hallr
      refine ⟨stout, ?_, hle, h0o, hso, ?_⟩
      · simp only [bruteLoop, if_pos hskip]
        exact hout
      · rintro ⟨d, hd, hdle⟩
        rcases List.mem_cons.mp hd with rfl | hd
        · omega
        · exact hex ⟨d, hd, hdle⟩
    · have hw1 : (0 : ℚ) < ((c.1 : ℕ) : ℚ) * pw := by
        have : (1 : ℚ) ≤ ((c.1 : ℕ) : ℚ) := by exact_mod_cast hc1
        nlinarith
      have hh1 : (0 : ℚ) < ((c.2 : ℕ) : ℚ) * ph := by
        have : (1 : ℚ) ≤ ((c.2 : ℕ) : ℚ) := by exact_mod_cast hc2
        nlinarith
      have hw2 : (0 : ℚ) < ((c.1 : ℕ) : ℚ) * ph := by
        have : (1 : ℚ) ≤ ((c.1 : ℕ) : ℚ) := by exact_mod_cast hc1
        nlinarith
      have hh2 : (0 : ℚ) < ((c.2 : ℕ) : ℚ) * pw := by
        have : (1 : ℚ) ≤ ((c.2 : ℕ) : ℚ) := by exact_mod_cast hc2
        nlinarith
      obtain ⟨pP, hP, hP1, hP2, hPa, hPw, hPh⟩ := fitWidth_ok hW hH hw1 hh1
      obtain ⟨pL, hL, hL1, hL2, hLa, hLw, hLh⟩ := fitWidth_ok hW hH hw2 hh2
      set st1 := if pP.1 * pP.2 > st.1 then (pP.1 * pP.2, some pP) else st with hst1
      set st2 := if pL.1 * pL.2 > st1.1 then (pL.1 * pL.2, some pL) else st1 with hst2
      have h1pos : 0 < st1.1 := by
        rw [hst1]
        by_cases hgt : pP.1 * pP.2 > st.1
        · simp only [if_pos hgt]
          positivity
        · simp only [if_neg hgt]
          push_neg at hgt
          nlinarith [hP1, hP2]
      have h1some : st1.2.isSome := by
        rw [hst1]
        by_cases hgt : pP.1 * pP.2 > st.1
        · simp [if_pos hgt]
        · simp only [if_neg hgt]
          push_neg at hgt
          exact hsome (by nlinarith [hP1, hP2])
      have h2pos : 0 < st2.1 := by
        rw [hst2]
        by_cases hgt : pL.1 * pL.2 > st1.1
        · simp only [if_pos hgt]
          positivity
        · simpa only [if_neg hgt] using h1pos
      have h2some : st2.2.isSome := by
        rw [hst2]
        by_cases hgt : pL.1 * pL.2 > st1.1
        · simp [if_pos hgt]
        · simpa only [if_neg hgt] using h1some
      have h2ge : st.1 ≤ st2.1 := by
        have ha : st.1 ≤ st1.1 := by
          rw [hst1]
          by_cases hgt : pP.1 * pP.2 > st.1
          · simp only [if_pos hgt]
            exact le_of_lt hgt
          · simp only [if_neg hgt, le_refl]
        have hb : st1.1 ≤ st2.1 := by
          rw [hst2]
          by_cases hgt : pL.1 * pL.2 > st1.1
          · simp only [if_pos hgt]
            exact le_of_lt hgt
          · simp only [if_neg hgt, le_refl]
        exact le_trans ha hb
      obtain ⟨stout, hout, hle, h0o, hso, hex⟩ :=
        ih st2 (le_of_lt h2pos) (fun _ => h2some) hallr
      refine ⟨stout, ?_, le_trans h2ge hle, h0o, hso, fun _ => lt_of_lt_of_le h2pos hle⟩
      simp only [bruteLoop, if_neg hskip, hP, hL, Bind.bind, Except.bind]
      rw [← hst1, ← hst2]
      exact hout

theorem mem_npagesCands {np : ℕ} : ∀ c ∈ npagesCands np, 1 ≤ c.1 ∧ 1 ≤ c.2 := by
  intro c hc
  simp only [npagesCands, List.mem_flatMap, List.mem_map, List.mem_range] at hc
  obtain ⟨x, hx, y, hy, rfl⟩ := hc
  omega

theorem one_one_mem_npagesCands {np : ℕ} (h : 1 ≤ np) :
    (1, 1) ∈ npagesCands np ∧ (1 : ℕ) * 1 ≤ np := by
  refine ⟨?_, by omega⟩
  simp only [npagesCands, List.mem_flatMap, List.mem_map, List.mem_range]
  exact ⟨0, by omega, 0, by omega, rfl⟩

theorem computeLayoutNpagesSimple_ok (W H : ℚ) (np : ℕ) (pw ph bt br bb bl : ℚ)
    (hW : 0 < W) (hH : 0 < H) (hpw : 0 < pw - (bl + br))
    (hph : 0 < ph - (bt + bb)) (hnp : 1 ≤ np) :
    ∃ (lay : Layout ℚ) (ps : ℚ × ℚ) (mult : ℚ),
      computeLayoutNpagesSimple W H np pw ph bt br bb bl =
        Except.ok (lay, (ps, mult, np)) := by
  obtain ⟨hmem, hle⟩ := one_one_mem_npagesCands hnp
  obtain ⟨stout, hout, hge, h0o, hso, hex⟩ :=
    bruteLoop_invariant np hW hH hpw hph (npagesCands np) (0, none)
      (le_refl 0) (by simp) mem_npagesCands
  have hsome : stout.2.isSome := hso (hex ⟨(1, 1), hmem, hle⟩)
  obtain ⟨p, hp⟩ := Option.isSome_iff_exists.mp hsome
  obtain ⟨lay, hlay⟩ :=
    layoutTail_ok p.1 p.2 (pw - (bl + br)) (ph - (bt + bb)) bt br bb bl
      (pw, ph) Strategy.simple (ne_of_gt hpw) (ne_of_gt hph)
  have hWH : ¬(W * H = 0) := by positivity
  refine ⟨lay, (p.1, p.2), p.1 * p.2 / (W * H), ?_⟩
  simp only [computeLayoutNpagesSimple, hout, Bind.bind, Except.bind, hp, hlay,
    if_neg hWH, Pure.pure, Except.pure]

theorem computeLayoutSize_npages_eq (W H bw bh pw ph bt br bb bl : ℚ)
    (strategy : Strategy) (lay : Layout ℚ) (ps : ℚ × ℚ) (mult : ℚ) (k : ℕ)
    (h : computeLayoutSize W H bw bh pw ph bt br bb bl strategy =
      Except.ok (lay, (ps, mult, k))) :
    k = lay.positions.length := by
  rcases hfib : fitInBox W H bw bh with e | p
  · simp only [computeLayoutSize, hfib, Bind.bind, Except.bind] at h
    cases h
  · rcases hlt : layoutTail p.1 p.2 (pw - (bl + br)) (ph - (bt + bb)) bt br bb bl
        (pw, ph) strategy with e2 | lay2
    · simp only [computeLayoutSize, hfib, hlt, Bind.bind, Except.bind] at h
      cases h
    · by_cases hwh : W * H = 0
      · simp only [computeLayoutSize, hfib, hlt, Bind.bind, Except.bind,
          if_pos hwh] at h
        cases h
      · simp only [computeLayoutSize, hfib, hlt, Bind.bind, Except.bind,
          if_neg hwh, Pure.pure, Except.pure, Except.ok.injEq, Prod.mk.injEq] at h
        obtain ⟨hlay, hps, hmult, hk⟩ := h
        rw [← hlay, ← hk]

theorem computeLayoutMult_npages_eq (W H f pw ph bt br bb bl : ℝ)
    (strategy : Strategy) (lay : Layout ℝ) (ps : ℝ × ℝ) (mult : ℝ) (k : ℕ)
    (h : computeLayoutMult W H f pw ph bt br bb bl strategy =
      Except.ok (lay, (ps, mult, k))) :
    k = lay.positions.length := by
  by_cases hg1 : H = 0 ∨ W = 0
  · simp only [computeLayoutMult, if_pos hg1, Bind.bind, Except.bind] at h
    cases h
  · by_cases hg2 : W * H * f * W / H < 0 ∨ W * H * f * H / W < 0
    · simp only [computeLayoutMult, if_neg hg1, if_pos hg2, Bind.bind,
        Except.bind] at h
      cases h
    · rcases hlt : layoutTail (multPosterSize W H f).1 (multPosterSize W H f).2
          (pw - (bl + br)) (ph - (bt + bb)) bt br bb bl (pw, ph) strategy
          with e2 | lay2
      · simp only [computeLayoutMult, if_neg hg1, if_neg hg2, hlt, Bind.bind,
          Except.bind] at h
        cases h
      · simp only [computeLayoutMult, if_neg hg1, if_neg hg2, hlt, Bind.bind,
          Except.bind, Pure.pure, Except.pure, Except.ok.injEq, Prod.mk.injEq] at h
        obtain ⟨hlay, hps, hmult, hk⟩ := h
        rw [← hlay, ← hk]

theorem fitWidth_square_eval :
    fitWidth (10 : ℚ) 10 10 10 = Except.ok (10, 10) := by
  simp only [fitWidth, Bind.bind, Except.bind, Pure.pure, Except.pure]
  norm_num

theorem c10_fitWidth_tall :
    fitWidth (10 : ℚ) 10 10 20 = Except.ok (10, 10) := by
  simp only [fitWidth, Bind.bind, Except.bind, Pure.pure, Except.pure]
  norm_num

theorem c10_fitWidth_wide :
    fitWidth (10 : ℚ) 10 20 10 = Except.ok (10, 10) := by
  simp only [fitWidth, Bind.bind, Except.bind, Pure.pure, Except.pure]
  norm_num

theorem c10_bruteLoop_eval :
    bruteLoop (10 : ℚ) 10 10 10 2 (npagesCands 2) (0, none) =
      Except.ok (100, some (10, 10)) := by
  have hcands : npagesCands 2 = [(1, 1), (1, 2), (2, 1), (2, 2)] := rfl
  rw [hcands]
  simp only [bruteLoop, Bind.bind, Except.bind, Pure.pure, Except.pure]
  norm_num [fitWidth_square_eval, c10_fitWidth_tall, c10_fitWidth_wide]

theorem c10_layoutTail_eval :
    layoutTail (10 : ℚ) 10 10 10 0 0 0 0 (10, 10) Strategy.simple =
      Except.ok
        { output_pagesize := (10, 10)
          border_top := 0
          border_right := 0
          border_bottom := 0
          border_left := 0
          overallsize := (10, 10)
          posterpos := (0, 0)
          positions := [(0, 0, true)]
          postersize := (10, 10) } := by
  have e1 : ⌈(10 : ℚ) / 10⌉ = 1 := by
    rw [Int.ceil_eq_iff]
    norm_num
  have t1 : (1 : ℤ).toNat = 1 := rfl
  have hstrat : (Strategy.simple = Strategy.complex) = False := by simp
  simp only [layoutTail, e1, t1, hstrat, if_false, Bind.bind, Except.bind,
    Pure.pure, Except.pure]
  norm_num
  rw [show List.range 1 = [0] from rfl]
  norm_num [List.flatMap_cons, List.flatMap_nil]

theorem c10_concrete_eval :
    computeLayoutNpagesSimple (10 : ℚ) 10 2 10 10 0 0 0 0 =
      Except.ok
        ({ output_pagesize := (10, 10)
           border_top := 0
           border_right := 0
           border_bottom := 0
           border_left := 0
           overallsize := (10, 10)
           posterpos := (0, 0)
           positions := [(0, 0, true)]
           postersize := (10, 10) }, ((10, 10), 1, 2)) := by
  simp only [computeLayoutNpagesSimple, Bind.bind, Except.bind]
  norm_num [c10_bruteLoop_eval]
  simp only [c10_layoutTail_eval, Except.bind, Pure.pure, Except.pure]
  norm_num

/-- Claim C10: in mode `"npages"` the sheet-count component of the
returned triple is always exactly the caller-supplied budget `n`,
unchanged — even when the layout actually stores strictly fewer
placements (here 1 placement against a budget of 2) — whereas in modes
`"size"` and `"mult"` the returned sheet count equals the number of
stored placements. -/
theorem c10_returned_npages (W H pw ph bt br bb bl : ℚ) (np : ℕ)
    (hW : 0 < W) (hH : 0 < H) (hpw : 0 < pw - (bl + br))
    (hph : 0 < ph - (bt + bb)) (hnp : 1 ≤ np) :
    (∃ (lay : Layout ℚ) (ps : ℚ × ℚ) (mult : ℚ),
      computeLayoutNpagesSimple W H np pw ph bt br bb bl =
        Except.ok (lay, (ps, mult, np))) ∧
    (∀ (W2 H2 bw bh pw2 ph2 bt2 br2 bb2 bl2 : ℚ) (strategy : Strategy)
        (lay : Layout ℚ) (ps : ℚ × ℚ) (mult : ℚ) (k : ℕ),
      computeLayoutSize W2 H2 bw bh pw2 ph2 bt2 br2 bb2 bl2 strategy =
          Except.ok (lay, (ps, mult, k)) →
        k = lay.positions.length) ∧
    (∀ (W3 H3 f pw3 ph3 bt3 br3 bb3 bl3 : ℝ) (strategy : Strategy)
        (lay : Layout ℝ) (ps : ℝ × ℝ) (mult : ℝ) (k : ℕ),
      computeLayoutMult W3 H3 f pw3 ph3 bt3 br3 bb3 bl3 strategy =
          Except.ok (lay, (ps, mult, k)) →
        k = lay.positions.length) ∧
    npagesOf (computeLayoutNpagesSimple (10 : ℚ) 10 2 10 10 0 0 0 0) = 2 ∧
    (positionsOf (computeLayoutNpagesSimple (10 : ℚ) 10 2 10 10 0 0 0 0)).length =
      1 := by
  refine ⟨computeLayoutNpagesSimple_ok W H np pw ph bt br bb bl hW hH hpw hph hnp,
    fun W2 H2 bw bh pw2 ph2 bt2 br2 bb2 bl2 strategy lay ps mult k h =>
      computeLayoutSize_npages_eq W2 H2 bw bh pw2 ph2 bt2 br2 bb2 bl2 strategy
        lay ps mult k h,
    fun W3 H3 f pw3 ph3 bt3 br3 bb3 bl3 strategy lay ps mult k h =>
      computeLayoutMult_npages_eq W3 H3 f pw3 ph3 bt3 br3 bb3 bl3 strategy
        lay ps mult k h, ?_, ?_⟩
  · simp [npagesOf, c10_concrete_eval]
  · simp [positionsOf, c10_concrete_eval]

/-- Witness for C10 at the concrete budget-2 input. -/
theorem c10_returned_npages_witness :
    (0 : ℚ) < 10 ∧
      ∃ (lay : Layout ℚ) (ps : ℚ × ℚ) (mult : ℚ),
        computeLayoutNpagesSimple (10 : ℚ) 10 2 10 10 0 0 0 0 =
          Except.ok (lay, (ps, mult, 2)) :=
  ⟨by norm_num,
    (c10_returned_npages 10 10 10 10 0 0 0 0 2 (by norm_num) (by norm_num)
      (by norm_num) (by norm_num) (by norm_num)).1⟩

end ClaimC10

section ClaimC4

theorem bisectLoop_props (cnt : ℚ → ℕ) (np : ℕ) :
    ∀ minM maxM : ℚ, minM ≤ maxM → cnt minM ≤ np →
      minM ≤ bisectLoop cnt np minM maxM ∧
        cnt (bisectLoop cnt np minM maxM) ≤ np := by
  intro minM maxM
  induction minM, maxM using bisectLoop.induct cnt np with
  | case1 minM maxM h =>
    intro hle hcnt
    rw [bisectLoop, dif_pos h]
    exact ⟨le_refl _, hcnt⟩
  | case2 minM maxM h mid hgt ih =>
    intro hle hcnt
    rw [bisectLoop, dif_neg h]
    simp only [if_pos hgt]
    have hmid : minM ≤ (minM + maxM) / 2 := by linarith
    exact ih hmid hcnt
  | case3 minM maxM h mid hgt ih =>
    intro hle hcnt
    rw [bisectLoop, dif_neg h]
    have hmid2 : mid = (minM + maxM) / 2 := rfl
    rw [hmid2] at hgt ih
    simp only [if_neg hgt]
    have hmid : (minM + maxM) / 2 ≤ maxM := by linarith
    have hcnt2 : cnt ((minM + maxM) / 2) ≤ np := Nat.le_of_not_lt hgt
    obtain ⟨hh1, hh2⟩ := ih hmid hcnt2
    exact ⟨by linarith [hh1], hh2⟩

theorem bruteLoop_best_bound {W H pw ph : ℚ} {np : ℕ}
    (hW : 0 < W) (hH : 0 < H) (hpw : 0 < pw) (hph : 0 < ph) :
    ∀ (cands : List (ℕ × ℕ)) (st : ℚ × Option (ℚ × ℚ)),
      (∀ c ∈ cands, 1 ≤ c.1 ∧ 1 ≤ c.2) →
      (∀ q : ℚ × ℚ, st.2 = some q →
        0 < q.1 ∧ 0 < q.2 ∧ q.1 * q.2 ≤ (np : ℕ) * (pw * ph)) →
      ∀ stout, bruteLoop W H pw ph np cands st = Except.ok stout →
        ∀ q : ℚ × ℚ, stout.2 = some q →
          0 < q.1 ∧ 0 < q.2 ∧ q.1 * q.2 ≤ (np : ℕ) * (pw * ph) := by
  intro cands
  induction cands with
  | nil =>
    intro st hall hst stout hout
    simp only [bruteLoop, Pure.pure, Except.pure, Except.ok.injEq] at hout
    subst hout
    exact hst
  | cons c rest ih =>
    intro st hall hst stout hout
    have hc1 : 1 ≤ c.1 := (hall c (List.mem_cons_self c rest)).1
    have hc2 : 1 ≤ c.2 := (hall c (List.mem_cons_self c rest)).2
    have hallr : ∀ d ∈ rest, 1 ≤ d.1 ∧ 1 ≤ d.2 := fun d hd =>
      hall d (List.mem_cons_of_mem c hd)
    by_cases hskip : c.1 * c.2 > np
    · simp only [bruteLoop, if_pos hskip] at hout
      exact ih st hallr hst stout hout
    · have hcc : ((c.1 : ℕ) : ℚ) * ((c.2 : ℕ) : ℚ) ≤ ((np : ℕ) : ℚ) := by
        have : c.1 * c.2 ≤ np := Nat.le_of_not_lt hskip
        exact_mod_cast this
      have hw1 : (0 : ℚ) < ((c.1 : ℕ) : ℚ) * pw := by
        have : (1 : ℚ) ≤ ((c.1 : ℕ) : ℚ) := by exact_mod_cast hc1
        nlinarith
      have hh1 : (0 : ℚ) < ((c.2 : ℕ) : ℚ) * ph := by
        have : (1 : ℚ) ≤ ((c.2 : ℕ) : ℚ) := by exact_mod_cast hc2
        nlinarith
      have hw2 : (0 : ℚ) < ((c.1 : ℕ) : ℚ) * ph := by
        have : (1 : ℚ) ≤ ((c.1 : ℕ) : ℚ) := by exact_mod_cast hc1
        nlinarith
      have hh2 : (0 : ℚ) < ((c.2 : ℕ) : ℚ) * pw := by
        have : (1 : ℚ) ≤ ((c.2 : ℕ) : ℚ) := by exact_mod_cast hc2
        nlinarith
      obtain ⟨pP, hP, hP1, hP2, hPa, hPw, hPh⟩ := fitWidth_ok hW hH hw1 hh1
      obtain ⟨pL, hL, hL1, hL2, hLa, hLw, hLh⟩ := fitWidth_ok hW hH hw2 hh2
      have hprodbound : ((c.1 : ℕ) : ℚ) * ((c.2 : ℕ) : ℚ) * (pw * ph) ≤
          ((np : ℕ) : ℚ) * (pw * ph) :=
        mul_le_mul_of_nonneg_right hcc (by positivity)
      have hPbound : pP.1 * pP.2 ≤ ((np : ℕ) : ℚ) * (pw * ph) := by
        have hb1 : pP.1 * pP.2 ≤ ((c.1 : ℕ) : ℚ) * pw * (((c.2 : ℕ) : ℚ) * ph) :=
          mul_le_mul hPw hPh (le_of_lt hP2) (by positivity)
        have hb2 : ((c.1 : ℕ) : ℚ) * pw * (((c.2 : ℕ) : ℚ) * ph) =
            ((c.1 : ℕ) : ℚ) * ((c.2 : ℕ) : ℚ) * (pw * ph) := by ring
        rw [hb2] at hb1
        linarith [hb1, hprodbound]
      have hLbound : pL.1 * pL.2 ≤ ((np : ℕ) : ℚ) * (pw * ph) := by
        have hb1 : pL.1 * pL.2 ≤ ((c.1 : ℕ) : ℚ) * ph * (((c.2 : ℕ) : ℚ) * pw) :=
          mul_le_mul hLw hLh (le_of_lt hL2) (by positivity)
        have hb2 : ((c.1 : ℕ) : ℚ) * ph * (((c.2 : ℕ) : ℚ) * pw) =
            ((c.1 : ℕ) : ℚ) * ((c.2 : ℕ) : ℚ) * (pw * ph) := by ring
        rw [hb2] at hb1
        linarith [hb1, hprodbound]
      simp only [bruteLoop, if_neg hskip, hP, hL, Bind.bind, Except.bind] at hout
      set st1 := if pP.1 * pP.2 > st.1 then (pP.1 * pP.2, some pP) else st with hst1
      set st2 := if pL.1 * pL.2 > st1.1 then (pL.1 * pL.2, some pL) else st1 with hst2
      have hst1p : ∀ q : ℚ × ℚ, st1.2 = some q →
          0 < q.1 ∧ 0 < q.2 ∧ q.1 * q.2 ≤ ((np : ℕ) : ℚ) * (pw * ph) := by
        intro q hq
        rw [hst1] at hq
        by_cases hgt : pP.1 * pP.2 > st.1
        · rw [if_pos hgt] at hq
          simp only [Option.some.injEq] at hq
          subst hq
          exact ⟨hP1, hP2, hPbound⟩
        · rw [if_neg hgt] at hq
          exact hst q hq
      have hst2p : ∀ q : ℚ × ℚ, st2.2 = some q →
          0 < q.1 ∧ 0 < q.2 ∧ q.1 * q.2 ≤ ((np : ℕ) : ℚ) * (pw * ph) := by
        intro q hq
        rw [hst2] at hq
        by_cases hgt : pL.1 * pL.2 > st1.1
        · rw [if_pos hgt] at hq
          simp only [Option.some.injEq] at hq
          subst hq
          exact ⟨hL1, hL2, hLbound⟩
        · rw [if_neg hgt] at hq
          exact hst1p q hq
      exact ih st2 hallr hst2p stout hout

/-- Amended claim C4: for the complex strategy in mode `"npages"` with
budget n ≥ 1, whenever the abstract complex-tiler count function is
bounded by n at the bisection's initial lower-bound multiplier (true of
the real tiler, since the scaled-down simple-grid best poster needs at
most n sheets) and is never larger than the simple grid count, the
resulting layout stores at most n placements, and the resulting poster
area is at least 0.9999 times — not at least — the largest poster area
achievable by an x-by-y simple grid with x*y ≤ n. -/
theorem c4_npages_complex_bounds (W H pw ph bt br bb bl : ℚ) (np : ℕ)
    (cntC cntS : ℚ → ℕ) (hW : 0 < W) (hH : 0 < H)
    (hpw : 0 < pw - (bl + br)) (hph : 0 < ph - (bt + bb)) (hnp : 1 ≤ np)
    (hCS : ∀ q, cntC q ≤ cntS q)
    (hinit : ∀ (bA : ℚ) (p : ℚ × ℚ),
      bruteLoop W H (pw - (bl + br)) (ph - (bt + bb)) np (npagesCands np)
          (0, none) = Except.ok (bA, some p) →
        cntC (p.1 * p.2 / (W * H) * (9999 / 10000)) ≤ np) :
    ∃ (area : ℚ) (cnt : ℕ) (bA : ℚ) (p : ℚ × ℚ),
      computeLayoutNpagesComplexAbs W H np pw ph bt br bb bl cntC cntS =
        Except.ok (area, cnt, np) ∧
      bruteLoop W H (pw - (bl + br)) (ph - (bt + bb)) np (npagesCands np)
        (0, none) = Except.ok (bA, some p) ∧
      cnt ≤ np ∧
      (9999 / 10000) * (p.1 * p.2) ≤ area := by
  obtain ⟨hmem, hle11⟩ := one_one_mem_npagesCands hnp
  obtain ⟨stout, hout, hge, h0o, hso, hex⟩ :=
    bruteLoop_invariant np hW hH hpw hph (npagesCands np) (0, none)
      (le_refl 0) (by simp) mem_npagesCands
  have hsome : stout.2.isSome := hso (hex ⟨(1, 1), hmem, hle11⟩)
  obtain ⟨p, hp⟩ := Option.isSome_iff_exists.mp hsome
  have houtp : bruteLoop W H (pw - (bl + br)) (ph - (bt + bb)) np
      (npagesCands np) (0, none) = Except.ok (stout.1, some p) := by
    rw [hout]
    rw [← hp]
  obtain ⟨hq1, hq2, hqb⟩ :=
    bruteLoop_best_bound hW hH hpw hph (npagesCands np) (0, none)
      mem_npagesCands (by simp) stout hout p hp
  have hWH : ¬(W * H = 0) := by positivity
  have hWHpos : (0 : ℚ) < W * H := by positivity
  set minM := p.1 * p.2 / (W * H) * (9999 / 10000) with hminM
  set maxM := ((np : ℕ) : ℚ) * (pw - (bl + br)) * (ph - (bt + bb)) / (W * H)
    with hmaxM
  have hminmax : minM ≤ maxM := by
    rw [hminM, hmaxM]
    have h1 : p.1 * p.2 / (W * H) ≤
        ((np : ℕ) : ℚ) * (pw - (bl + br)) * (ph - (bt + bb)) / (W * H) :=
      (div_le_div_iff_of_pos_right hWHpos).mpr (by nlinarith [hqb])
    have h2 : 0 ≤ p.1 * p.2 / (W * H) := by positivity
    nlinarith [h1, h2]
  have hcnt0 : cntC minM ≤ np := hinit stout.1 p houtp
  obtain ⟨hfge, hfcnt⟩ := bisectLoop_props cntC np minM maxM hminmax hcnt0
  refine ⟨W * H * bisectLoop cntC np minM maxM,
    (if cntC (bisectLoop cntC np minM maxM) < cntS (bisectLoop cntC np minM maxM)
      then cntC (bisectLoop cntC np minM maxM)
      else cntS (bisectLoop cntC np minM maxM)),
    stout.1, p, ?_, houtp, ?_, ?_⟩
  · simp only [computeLayoutNpagesComplexAbs, houtp, Bind.bind, Except.bind,
      if_neg hWH, Pure.pure, Except.pure]
  · by_cases hc : cntC (bisectLoop cntC np minM maxM) <
        cntS (bisectLoop cntC np minM maxM)
    · simpa only [if_pos hc] using hfcnt
    · have heq : cntS (bisectLoop cntC np minM maxM) =
          cntC (bisectLoop cntC np minM maxM) :=
        le_antisymm (Nat.le_of_not_lt hc) (hCS _)
      rw [if_neg hc, heq]
      exact hfcnt
  · have harea : W * H * minM = (9999 / 10000) * (p.1 * p.2) := by
      rw [hminM]
      field_simp
      ring
    have hmono : W * H * minM ≤ W * H * bisectLoop cntC np minM maxM :=
      mul_le_mul_of_nonneg_left hfge (le_of_lt hWHpos)
    linarith [harea, hmono]

theorem c4_brute_eval :
    bruteLoop (10 : ℚ) 10 10 10 1 (npagesCands 1) (0, none) =
      Except.ok (100, some (10, 10)) := by
  have hcands : npagesCands 1 = [(1, 1)] := rfl
  rw [hcands]
  simp only [bruteLoop, Bind.bind, Except.bind, Pure.pure, Except.pure]
  norm_num [fitWidth_square_eval]

theorem c4_bisect_eval :
    bisectLoop (fun _ : ℚ => 1) 1 (9999 / 10000) 1 = 9999 / 10000 := by
  have habs : |(9999 / 10000 : ℚ) - 1| < 1 / 1000 := by
    rw [abs_of_nonpos (by norm_num)]
    norm_num
  rw [bisectLoop, dif_pos habs]

/-- Counterexample to claim C4 as stated: source page 10mm-by-10mm,
printable sheet 10mm-by-10mm, budget n = 1.  The simple-grid lower bound
is a 10-by-10 poster of area 100; the bisection bracket
`[0.9999, 1]` is already narrower than 0.001 so the loop exits
immediately at `min_area_mult = 0.9999`, and the resulting poster area is
`99.99 < 100` — strictly below the simple-grid lower bound.  (The
tiler-count functions are irrelevant here: the bisection never evaluates
them on this input.) -/
theorem c4_counterexample :
    computeLayoutNpagesComplexAbs (10 : ℚ) 10 1 10 10 0 0 0 0
        (fun _ => 1) (fun _ => 1) =
      Except.ok (9999 / 100, 1, 1) ∧
    bruteLoop (10 : ℚ) 10 10 10 1 (npagesCands 1) (0, none) =
      Except.ok (100, some (10, 10)) ∧
    (9999 / 100 : ℚ) < 10 * 10 := by
  refine ⟨?_, c4_brute_eval, by norm_num⟩
  simp only [computeLayoutNpagesComplexAbs, Bind.bind, Except.bind]
  norm_num [c4_brute_eval]
  norm_num [c4_bisect_eval, Pure.pure, Except.pure]

/-- Witness for the amended C4 at the same square input with constant
tiler counts. -/
theorem c4_npages_complex_bounds_witness :
    (0 : ℚ) < 10 ∧
      ∃ (area : ℚ) (cnt : ℕ) (bA : ℚ) (p : ℚ × ℚ),
        computeLayoutNpagesComplexAbs (10 : ℚ) 10 1 10 10 0 0 0 0
            (fun _ => 1) (fun _ => 1) =
          Except.ok (area, cnt, 1) ∧
        bruteLoop (10 : ℚ) 10 (10 - (0 + 0)) (10 - (0 + 0)) 1 (npagesCands 1)
            (0, none) =
          Except.ok (bA, some p) ∧
        cnt ≤ 1 ∧
        (9999 / 10000) * (p.1 * p.2) ≤ area :=
  ⟨by norm_num,
    c4_npages_complex_bounds 10 10 10 10 0 0 0 0 1 (fun _ => 1) (fun _ => 1)
      (by norm_num) (by norm_num) (by norm_num) (by norm_num) (le_refl 1)
      (fun q => le_refl 1) (fun bA p _ => le_refl 1)⟩

end ClaimC4

end Plakativ
